import Mathlib

/-!
# MCPower-GUI: predictor-expansion and model-state synchronization engine

A shallow embedding of the algorithmic core of the `mcpower_gui` package
(files `tabs/model_tab.py`, `state.py`, `widgets/correlation_editor.py`,
`widgets/effects_editor.py`, `widgets/cluster_editor.py`,
`history_manager.py`), with theorems settling the specification claims.

Python dicts are modelled as insertion-ordered association lists with
unique keys (`dictSet` replaces in place, appends fresh keys — the
semantics of CPython dict assignment).  Floats are modelled as exact
rationals; the one place IEEE semantics matter (NaN produced by
`np.corrcoef` on a zero-variance column, and the `val != 0.0` test on
it) is modelled explicitly by the `EFloat` type.
-/

namespace MCPowerGui

/-- `dict.get(k)`: first (unique) binding for `k`, if any. -/
def dictGet {α : Type} (m : List (String × α)) (k : String) : Option α :=
  (m.find? (fun p => p.1 == k)).map (·.2)

/-- `dict[k] = v`: replace the binding in place if the key is present,
otherwise append it (CPython dicts preserve insertion order). -/
def dictSet {α : Type} (m : List (String × α)) (k : String) (v : α) :
    List (String × α) :=
  if m.any (fun p => p.1 == k) then
    m.map (fun p => if p.1 == k then (k, v) else p)
  else
    m ++ [(k, v)]

/-- `dict(d); merged.update(u)`: overlay `u` on top of `d`. -/
def dictMerge {α : Type} (d u : List (String × α)) : List (String × α) :=
  u.foldl (fun acc p => dictSet acc p.1 p.2) d

/-- `str.split(sep)` on a list of characters (CPython semantics:
`"".split(":") = [""]`, `"a:".split(":") = ["a", ""]`). -/
def splitCharsOn (sep : Char) (cs : List Char) : List (List Char) :=
  cs.foldr
    (fun c acc =>
      if c = sep then [] :: acc
      else
        match acc with
        | [] => [[c]]
        | h :: t => (c :: h) :: t)
    [[]]

/-- `name.split(":")`. -/
def splitColon (s : String) : List String :=
  (splitCharsOn ':' s.data).map String.mk

/-- `key.split(",")`. -/
def splitComma (s : String) : List String :=
  (splitCharsOn ',' s.data).map String.mk

/-- `":" in name`. -/
def hasColon (s : String) : Bool := s.data.contains ':'

/-- `":".join(parts)`. -/
def joinColon : List String → String
  | [] => ""
  | [s] => s
  | s :: rest => s ++ ":" ++ joinColon rest

/-- Lexicographic comparison of character lists by code point — the
ordering CPython uses for `str` comparison. -/
def charListLt : List Char → List Char → Bool
  | [], [] => false
  | [], _ :: _ => true
  | _ :: _, [] => false
  | a :: as, b :: bs =>
    if a.toNat < b.toNat then true
    else if b.toNat < a.toNat then false
    else charListLt as bs

/-- Python `a < b` on strings. -/
def strLt (a b : String) : Bool := charListLt a.data b.data

/-- `_corr_key(a, b)` from `widgets/correlation_editor.py`: the two
variable names sorted alphabetically and comma-joined
(`",".join(sorted([a, b]))`). -/
def corrKey (a b : String) : String :=
  if strLt b a then b ++ "," ++ a else a ++ "," ++ b

/-!
## Type registry (`variable_types` entries)

A `variable_types` value is a duck-typed Python dict; the fields below
cover every key the core reads.  An absent `level_labels` key and an
empty list are both falsy in Python, so `levelLabels = []` models both.
-/

/-- One `variable_types` info dict
(e.g. `{"type": "factor", "n_levels": 3, "proportions": [...]}`). -/
structure TypeInfo where
  type : String := "continuous"
  proportion : Option ℚ := none
  nLevels : Option Nat := none
  proportions : List ℚ := []
  levelLabels : List String := []
  nUnique : Option Nat := none
deriving Repr, DecidableEq

/-- `types.get(name, {})`: a missing entry behaves as the empty dict,
whose `.get("type", "continuous")` yields `"continuous"` and whose
other lookups yield the callers' defaults. -/
def typeInfoOf (types : List (String × TypeInfo)) (name : String) : TypeInfo :=
  (dictGet types name).getD
    { type := "continuous", proportion := none, nLevels := none,
      proportions := [], levelLabels := [], nUnique := none }

/-- `types.get(comp, {}).get("type") == "factor"` — note that a missing
entry gives `None == "factor"`, i.e. `false`. -/
def isFactorComp (types : List (String × TypeInfo)) (comp : String) : Bool :=
  (dictGet types comp).map (·.type) == some "factor"

/-!
## Predictor Expander (`ModelTab._expand_predictors`)
-/

/-- The dummy names one factor emits for base name `comp` with info
`info`: the non-reference labels in `level_labels` order when labels
are present (first label is the reference), else integer levels
`2..n_levels` (`n_levels` defaulting to 3). -/
def factorDummyLevels (info : TypeInfo) : List String :=
  if info.levelLabels ≠ [] then
    let reference := info.levelLabels.headD ""
    info.levelLabels.filter (· ≠ reference)
  else
    (List.range' 2 (info.nLevels.getD 3 - 1)).map (fun lvl => toString lvl)

/-- The `factor_indices` list of `_expand_predictors`: the interaction
component positions whose type is `"factor"`. -/
def interactionFactorIndices (name : String)
    (types : List (String × TypeInfo)) : List Nat :=
  (List.range (splitColon name).length).filter
    (fun i => isFactorComp types ((splitColon name).getD i ""))

/-- `parts = list(components); parts[fi] = f"{comp}[{label}]";
":".join(parts)` — the emitted interaction term name for one dummy. -/
def interactionDummyName (components : List String) (fi : Nat)
    (label : String) : String :=
  joinColon (components.set fi (components.getD fi "" ++ "[" ++ label ++ "]"))

/-- Body of the `for name in predictors` loop of `_expand_predictors`:
append `name`'s expansion to the accumulated
`(expanded, pred_types)`. -/
def expandStep (types : List (String × TypeInfo))
    (acc : List String × List (String × String)) (name : String) :
    List String × List (String × String) :=
  let (expanded, predTypes) := acc
  if hasColon name then
    let components := splitColon name
    let factorIndices := interactionFactorIndices name types
    if factorIndices ≠ [] then
      factorIndices.foldl
        (fun (acc2 : List String × List (String × String)) fi =>
          (factorDummyLevels (typeInfoOf types (components.getD fi ""))).foldl
            (fun (acc3 : List String × List (String × String)) label =>
              let interactionName := interactionDummyName components fi label
              (acc3.1 ++ [interactionName],
               dictSet acc3.2 interactionName "factor"))
            acc2)
        (expanded, predTypes)
    else
      (expanded ++ [name], dictSet predTypes name "continuous")
  else
    let info := typeInfoOf types name
    if info.type == "factor" then
      (factorDummyLevels info).foldl
        (fun (acc3 : List String × List (String × String)) label =>
          let dummyName := name ++ "[" ++ label ++ "]"
          (acc3.1 ++ [dummyName], dictSet acc3.2 dummyName "factor"))
        (expanded, predTypes)
    else
      (expanded ++ [name], dictSet predTypes name info.type)

/-- `ModelTab._expand_predictors(predictors, types)`: the ordered
expanded term names and the parallel `{expanded_name: type_tag}`
dict. -/
def expandPredictors (predictors : List String)
    (types : List (String × TypeInfo)) :
    List String × List (String × String) :=
  predictors.foldl (expandStep types) ([], [])

/-- Modelled from the spec's interaction-expansion rule (for the C1
refinement comparison): for each factor component at position `i`,
and for every non-reference level `L` of that component, emit the
interaction string with only position `i` replaced by
`component_i[L]`, all other positions keeping their bare name — one
dummy per non-reference level per factor component, no Cartesian
product across factor components. -/
def specInteractionExpansion (name : String)
    (types : List (String × TypeInfo)) : List String :=
  (interactionFactorIndices name types).flatMap
    (fun i =>
      (factorDummyLevels (typeInfoOf types ((splitColon name).getD i ""))).map
        (interactionDummyName (splitColon name) i))

/-!
## Rounding (Python `round(x, n)`)

Python `round` rounds half to even.  We model it exactly over ℚ (the
float payloads here are small counts divided by small totals; the
binary-representation tie quirks of CPython floats are idealised
away, as the spec describes the arithmetic over the reals).
-/

/-- Round to the nearest integer, ties to even (Python `round(x)`). -/
def roundHalfEven (q : ℚ) : ℤ :=
  let f := ⌊q⌋
  let r := q - (f : ℚ)
  if r < 1/2 then f
  else if 1/2 < r then f + 1
  else if f % 2 = 0 then f else f + 1

/-- Python `round(x, n)` for `n` decimal places. -/
def roundDec (n : Nat) (q : ℚ) : ℚ :=
  (roundHalfEven (q * (10 : ℚ) ^ n) : ℚ) / (10 : ℚ) ^ n

/-!
## Data Profiler (`ModelTab._detect_types_from_data`)

`_format_level_label` renders each cell before counting: a finite
float equal to its integer truncation renders as the integer string
(`4.0` → `"4"`), anything else via `str(v)`.  A numeric CSV cell is a
decimal literal `m / 10^e`; CPython parses it to the nearest float and
`str` prints that float's shortest round-tripping decimal, which for a
plain positional-notation literal is its canonical form (trailing
zeros stripped, e.g. `"0.250"` → `"0.25"`).  `CellValue.num m e`
carries the literal and `decString` renders that canonical form, so
value collapse (`4` vs `4.0`, `0.250` vs `0.25`) and the alphabetical
order of labels match CPython.  (Exponent-form `str` output — floats
≥ 1e16 or < 1e-4 — is outside the modelled literal range.)
-/

/-- One raw CSV cell: a numeric column cell, given by its decimal
literal `m / 10^e`, or a string column cell. -/
inductive CellValue : Type
  | num (m : ℤ) (e : ℕ)
  | str (s : String)
deriving Repr, DecidableEq

/-- Canonicalise a decimal literal: strip trailing fractional zeros
(`250 / 10^3` → `25 / 10^2`).  The residual exponent is `0` exactly
when the value is an integer, which is the `v == int(v)` test of
`_format_level_label`. -/
def normDec : ℤ → ℕ → ℤ × ℕ
  | m, 0 => (m, 0)
  | m, e + 1 => if (10 : ℤ) ∣ m then normDec (m / 10) e else (m, e + 1)

/-- Left-pad a digit string with zeros to `n` digits. -/
def padZeros (s : String) (n : ℕ) : String :=
  String.mk (List.replicate (n - s.length) '0') ++ s

/-- CPython `str` of the float written as the decimal literal
`m / 10^e` (positional notation): sign, integer part, `"."`, and the
fractional digits with trailing zeros stripped. -/
def decString (m : ℤ) (e : ℕ) : String :=
  let m1 := (normDec m e).1
  let e1 := (normDec m e).2
  if e1 = 0 then toString m1
  else
    (if m1 < 0 then "-" else "") ++
      toString (m1.natAbs / 10 ^ e1) ++ "." ++
      padZeros (toString (m1.natAbs % 10 ^ e1)) e1

/-- `_format_level_label(v)` from `tabs/model_tab.py`: an
integer-valued float (`v == int(v)`, i.e. the canonicalised literal
has residual exponent `0`) renders as the integer string, any other
float via `str(v)`. -/
def formatLevelLabel : CellValue → String
  | .num m e =>
    if (normDec m e).2 = 0 then toString (normDec m e).1
    else decString m e
  | .str s => s

/-- Insert into a sorted-ascending duplicate-free list of strings. -/
def insertUniqueStr (s : String) : List String → List String
  | [] => [s]
  | h :: t =>
    if s = h then h :: t
    else if strLt s h then s :: h :: t
    else h :: insertUniqueStr s t

/-- Python `sorted(set(l))`: distinct elements, ascending. -/
def sortedUnique (l : List String) : List String :=
  l.foldr insertUniqueStr []

/-- Result of per-column detection: one `_data_detected` entry. -/
def detectColumn (values : List CellValue) : TypeInfo :=
  let formatted := values.map formatLevelLabel
  let uniqueVals := sortedUnique formatted
  let nUnique := uniqueVals.length
  let total : ℚ := formatted.length
  if nUnique = 2 then
    -- Binary: proportion of the alphabetically larger formatted value
    let larger := uniqueVals.getLastD ""
    { type := "binary",
      proportion := some (roundDec 2 ((formatted.count larger : ℚ) / total)),
      nUnique := some nUnique }
  else if 3 ≤ nUnique ∧ nUnique ≤ 6 then
    -- Factor: per-label row fraction in label-sorted order
    { type := "factor",
      nLevels := some nUnique,
      proportions :=
        uniqueVals.map (fun label =>
          roundDec 4 ((formatted.count label : ℚ) / total)),
      levelLabels := uniqueVals,
      nUnique := some nUnique }
  else
    { type := "continuous", nUnique := some nUnique }

/-- `_detect_types_from_data`: detection applied per column,
independently, over the whole uploaded dataset. -/
def detectTypesFromData (data : List (String × List CellValue)) :
    List (String × TypeInfo) :=
  data.foldl (fun acc p => dictSet acc p.1 (detectColumn p.2)) []

/-!
## Correlation computation (`ModelTab._compute_data_correlations`)

`np.corrcoef` is an external-library boundary.  Its entry for a pair
of columns is the Pearson coefficient `r = Sxy / √(Sxx·Syy)` over the
mean-centred columns; when a column has zero variance the denominator
is zero and the entry is IEEE NaN.  The GUI stores
`round(float(entry), 2)` whenever that rounded value `!= 0.0` — and in
IEEE arithmetic `round(nan, 2)` is NaN and `nan != 0.0` is `True`.
`EFloat` models exactly this observable behaviour; the finite branch
is the real value rounded half-to-even to 2 decimals, computed exactly
by integer-square-root comparisons.
-/

/-- A float as observed by this code: IEEE NaN, or a finite value
(exact rational). -/
inductive EFloat : Type
  | nan
  | fin (q : ℚ)
deriving Repr, DecidableEq

/-- Python `val != 0.0`: NaN compares unequal to everything. -/
def efloatNeZero : EFloat → Bool
  | .nan => true
  | .fin q => decide (q ≠ 0)

/-- `sum` of a list of rationals. -/
def sumQ (l : List ℚ) : ℚ := l.foldl (· + ·) 0

/-- Column mean. -/
def meanQ (l : List ℚ) : ℚ := sumQ l / l.length

/-- Mean-centred column. -/
def devs (l : List ℚ) : List ℚ := l.map (· - meanQ l)

/-- Nearest integer to `100·|S|/√D` for `D > 0`, ties to even —
the magnitude of `round(r, 2)·100` for `r = S/√D`, computed exactly:
`m = ⌊√(10000·S²/D)⌋ = Nat.sqrt ⌊10000·S²/D⌋` and the half-way test
compares `40000·S²` against `(2m+1)²·D`. -/
def roundCorrMag (S D : ℚ) : Nat :=
  let m : Nat := Nat.sqrt (⌊10000 * S ^ 2 / D⌋).toNat
  if 40000 * S ^ 2 < ((2 * m + 1 : Nat) : ℚ) ^ 2 * D then m
  else if ((2 * m + 1 : Nat) : ℚ) ^ 2 * D < 40000 * S ^ 2 then m + 1
  else if m % 2 = 0 then m else m + 1

/-- `round(S/√D, 2)` for `D > 0`, as an exact rational. -/
def roundedCorr (S D : ℚ) : ℚ :=
  (if S < 0 then -1 else 1) * (roundCorrMag S D : ℚ) / 100

/-- `round(float(np.corrcoef(...)[i, j]), 2)` for the pair of columns
`(xs, ys)`: NaN when either column has zero variance (`Sxx·Syy = 0`),
else the Pearson coefficient rounded to 2 decimals. -/
def corrEntryRounded (xs ys : List ℚ) : EFloat :=
  let dx := devs xs
  let dy := devs ys
  let sxy := sumQ (List.zipWith (· * ·) dx dy)
  let sxx := sumQ (dx.map fun d => d * d)
  let syy := sumQ (dy.map fun d => d * d)
  if sxx * syy = 0 then .nan
  else .fin (roundedCorr sxy (sxx * syy))

/-- The loop body's store decision for one pair (lines 1071–1074 of
`tabs/model_tab.py`): keep `val` under the pair key iff `val != 0.0`. -/
def storedCorrEntry (xs ys : List ℚ) : Option EFloat :=
  let val := corrEntryRounded xs ys
  if efloatNeZero val then some val else none

/-- `ModelTab._compute_data_correlations`: the `_data_corr` dict after
recomputation.  `correlable` is `self._get_correlable_varNames()`;
`data` maps column names to (numeric) columns.  The `try/except` path
for non-numeric correlable columns (which leaves the map empty) is
orthogonal to the claims and not modelled; columns here are numeric. -/
def computeDataCorrelations (correlable : List String)
    (data : List (String × List ℚ)) : List (String × EFloat) :=
  let cols := correlable.filter (fun c => (dictGet data c).isSome)
  if cols.length < 2 then []
  else
    (List.range cols.length).foldl
      (fun m i =>
        (List.range cols.length).foldl
          (fun m j =>
            if i ≤ j then m
            else
              let a := cols.getD i ""
              let b := cols.getD j ""
              match storedCorrEntry ((dictGet data a).getD [])
                  ((dictGet data b).getD []) with
              | some val => dictSet m (corrKey a b) val
              | none => m)
          m)
      []

/-!
## Correlation editor (`widgets/correlation_editor.py`)

The lower-triangle grid of `QDoubleSpinBox` cells.  A spin box clamps
set values to its range `[-0.99, 0.99]`; its 2-decimal display
rounding is not modelled (every value the application feeds a cell is
already a 2-decimal rational).
-/

/-- Spin-box range clamp (`setRange(-0.99, 0.99)`). -/
def clampCorr (v : ℚ) : ℚ := max (-(99/100)) (min (99/100) v)

/-- The editor's observable state: the variable list and the cell
dict (canonical pair key → current spin value, zeros included). -/
structure CorrEditor where
  vars : List String
  cells : List (String × ℚ)
deriving Repr, DecidableEq

/-- The cell keys built by `set_varNames`: rows `1..n-1`, columns
`0..row-1` of the lower triangle. -/
def pairKeys (varNames : List String) : List String :=
  (List.range varNames.length).flatMap
    (fun rowIdx =>
      (List.range rowIdx).map
        (fun colIdx =>
          corrKey (varNames.getD rowIdx "") (varNames.getD colIdx "")))

/-- `CorrelationEditor.get_correlations`: the non-zero cell values. -/
def getCorrelations (e : CorrEditor) : List (String × ℚ) :=
  e.cells.filter (fun kv => decide (kv.2 ≠ 0))

/-- `CorrelationEditor.get_all_keys`. -/
def getAllKeys (e : CorrEditor) : List String := e.cells.map (·.1)

/-- `CorrelationEditor.set_varNames`: rebuild the grid, preserving
existing non-zero values (`old_values.get(key, 0.0)`); fewer than two
varNames leaves no cells. -/
def setVariables (e : CorrEditor) (varNames : List String) : CorrEditor :=
  let oldValues := getCorrelations e
  if varNames.length < 2 then { vars := varNames, cells := [] }
  else
    { vars := varNames,
      cells :=
        (pairKeys varNames).foldl
          (fun m key => dictSet m key (clampCorr ((dictGet oldValues key).getD 0)))
          [] }

/-- `CorrelationEditor.set_correlations`: repopulate every existing
cell from the dict (missing keys default to `0.0`). -/
def setCorrelations (e : CorrEditor) (m : List (String × ℚ)) : CorrEditor :=
  { e with cells := e.cells.map (fun kv => (kv.1, clampCorr ((dictGet m kv.1).getD 0))) }

/-- `CorrelationEditor` edit of one cell (a user typing a value into
the spin box for `key`): only existing cells change. -/
def editCell (e : CorrEditor) (key : String) (v : ℚ) : CorrEditor :=
  { e with cells := e.cells.map (fun kv => if kv.1 == key then (kv.1, clampCorr v) else kv) }

/-!
## Correlation Reconciler (`ModelTab` correlation management)
-/

/-- `ModelTab._get_correlable_varNames`: non-interaction predictors
typed continuous or binary. -/
def correlableVariables (predictors : List String)
    (types : List (String × TypeInfo)) : List String :=
  predictors.filter
    (fun name =>
      !hasColon name &&
        ((typeInfoOf types name).type == "continuous" ||
          (typeInfoOf types name).type == "binary"))

/-- `ModelTab._get_data_backed_varNames`: correlable varNames present
as uploaded-data columns (`none` = no data uploaded). -/
def dataBackedVariables (uploadedCols : Option (List String))
    (correlable : List String) : List String :=
  match uploadedCols with
  | none => []
  | some cols => correlable.filter (fun v => cols.contains v)

/-- Everything `_apply_corr_mode` leaves behind: the refreshed editor,
the locked pair keys, whether the whole editor was disabled, the
canonical map written to `state.correlations`, and the mode written to
`state.preserve_correlation`. -/
structure CorrModeResult where
  editor : CorrEditor
  locked : List String
  fullyDisabled : Bool
  canonical : List (String × ℚ)
  mode : String
deriving Repr, DecidableEq

/-- `ModelTab._apply_corr_mode`.  In strict mode with at least one
data-backed variable, pairs with a data-backed member are locked and
the rest re-enabled (`set_locked_keys`); with none, the editor is
disabled wholesale and all cells zeroed.  The canonical map is always
`self.correlation_editor.get_correlations()` afterwards. -/
def applyCorrMode (mode : String) (uploadedCols : Option (List String))
    (predictors : List String) (types : List (String × TypeInfo))
    (dataCorr userCorr : List (String × ℚ)) (e : CorrEditor) :
    CorrModeResult :=
  if mode = "strict" then
    let dataVars := dataBackedVariables uploadedCols (correlableVariables predictors types)
    if dataVars ≠ [] then
      let merged := dictMerge dataCorr userCorr
      let e1 := setCorrelations e merged
      let locked :=
        (getAllKeys e1).filter
          (fun key =>
            let parts := splitComma key
            dataVars.contains (parts.getD 0 "") ||
              dataVars.contains (parts.getD 1 ""))
      { editor := e1, locked := locked, fullyDisabled := false,
        canonical := getCorrelations e1, mode := mode }
    else
      let e1 := setCorrelations e []
      { editor := e1, locked := [], fullyDisabled := true,
        canonical := getCorrelations e1, mode := mode }
  else if mode = "partial" then
    let e1 := setCorrelations e (dictMerge dataCorr userCorr)
    { editor := e1, locked := [], fullyDisabled := false,
      canonical := getCorrelations e1, mode := mode }
  else
    let e1 := setCorrelations e userCorr
    { editor := e1, locked := [], fullyDisabled := false,
      canonical := getCorrelations e1, mode := mode }

/-- `ModelTab._on_corr_mode_changed`, restricted to its effect on the
`_user_corr` dict (it then re-applies the mode via
`_apply_corr_mode`): entering partial clears `_user_corr`; strict and
no keep it as-is. -/
def onCorrModeChangedUserEdits (mode : String)
    (userCorr : List (String × ℚ)) : List (String × ℚ) :=
  if mode = "partial" then [] else userCorr

/-- `ModelTab._on_correlations_changed`: how a full edited map coming
out of the editor is captured back into `_user_corr`. -/
def onCorrelationsChanged (mode : String) (dataVars : List String)
    (dataCorr : List (String × ℚ)) (correlations : List (String × ℚ)) :
    List (String × ℚ) :=
  if mode = "partial" then
    correlations.foldl
      (fun m kv =>
        if kv.2 = (dictGet dataCorr kv.1).getD 0 then m
        else dictSet m kv.1 kv.2)
      []
  else if mode = "strict" then
    correlations.foldl
      (fun m kv =>
        let parts := splitComma kv.1
        if dataVars.contains (parts.getD 0 "") ||
            dataVars.contains (parts.getD 1 "") then m
        else if kv.2 = 0 then m
        else dictSet m kv.1 kv.2)
      []
  else correlations

/-!
## Effects editor (`widgets/effects_editor.py`) and
`ModelTab._rebuild_effects`

`EffectsEditor.set_predictors` rebuilds one row (one `QDoubleSpinBox`,
range `[-2, 2]`) per expanded name, initialised with
`current_effects.get(name, 0.0)`; `get_effects` then reads every row
back.  `ModelTab._rebuild_effects` runs the Expander, pushes the
result into the editor and writes `get_effects()` back into
`state.effects` — so the editor rows are the authority for which
effect entries exist.
-/

/-- Spin-box range clamp for effect sizes (`setRange(-2.0, 2.0)`);
2-decimal display rounding is not modelled (all values fed in are
2-decimal already). -/
def clampEffect (v : ℚ) : ℚ := max (-2) (min 2 v)

/-- `EffectsEditor.set_predictors` followed by
`EffectsEditor.get_effects`: the rebuilt `{name: value}` dict. -/
def effectsRowsAfterSet (expanded : List String)
    (currentEffects : List (String × ℚ)) : List (String × ℚ) :=
  expanded.foldl
    (fun rows name =>
      dictSet rows name (clampEffect ((dictGet currentEffects name).getD 0)))
    []

/-- `ModelTab._rebuild_effects`, restricted to its state effect:
the new `state.effects` and the expanded-name list it returns. -/
def rebuildEffects (predictors : List String)
    (types : List (String × TypeInfo)) (effects : List (String × ℚ)) :
    List (String × ℚ) × List String :=
  let expanded := (expandPredictors predictors types).1
  (effectsRowsAfterSet expanded effects, expanded)

/-!
## Model state (`state.py` `ModelState`) and the mode switch
(`ModelTab._on_model_type_changed`)
-/

/-- One `anova_factors` entry (a factor definition dict). -/
structure AnovaFactor where
  name : String
  nLevels : Nat
  proportions : List ℚ
  levelLabels : List String
deriving Repr, DecidableEq

/-- One cluster-configuration dict (`ClusterEditor` card output /
`state.cluster_configs` entry).  Optional fields model keys that may
be absent from the dict. -/
structure ClusterConfig where
  grouping_var : String
  ICC : ℚ
  n_clusters : Option Nat := none
  n_per_parent : Option Nat := none
  parent_var : Option String := none
  random_slopes : Option (List String) := none
  slope_variance : Option ℚ := none
  slope_intercept_corr : Option ℚ := none
deriving Repr, DecidableEq

/-- The `ModelState` fields the mode switch and the restore path
touch. -/
structure MState where
  model_type : String := "linear_regression"
  formula : String := ""
  dep_var : String := ""
  predictors : List String := []
  effects : List (String × ℚ) := []
  variable_types : List (String × TypeInfo) := []
  anova_factors : List AnovaFactor := []
  anova_interactions : List String := []
  cluster_configs : List ClusterConfig := []
deriving Repr, DecidableEq

/-- `ModelTab._on_model_type_changed`, restricted to its direct
mutations of `ModelState` (`text` is the button label, `"ANOVA"` or
`"Linear Formula"`).  The handler then re-emits the *new* mode's own
editing surface (ANOVA editor refresh / formula-input re-parse);
those re-emissions are ordinary edit events of the new surface and
are modelled as separate events, not as part of the switch. -/
def onModelTypeChanged (text : String) (s : MState) : MState :=
  let modelType := if text = "ANOVA" then "anova" else "linear_regression"
  let s1 : MState :=
    { s with
      model_type := modelType,
      formula := "", dep_var := "", predictors := [],
      effects := [], variable_types := [] }
  if modelType = "anova" then
    { s1 with cluster_configs := [] }
  else
    { s1 with anova_factors := [], anova_interactions := [] }

/-!
## Cluster editor (`widgets/cluster_editor.py`) and the cluster part
of `ModelTab.restore_state` (lines 1268–1290)

`ClusterEditor.set_random_effects` saves the current cards' configs
into `_prev_configs`, rebuilds the cards (defaults `ICC = 0.2`,
`n_clusters = 20`, `n_per_parent = 3` for grouping variables without a
saved config), and then unconditionally emits `clusters_changed`,
which `ModelTab._on_clusters_changed` writes straight into
`state.cluster_configs`.
-/

/-- One parsed random-effect descriptor (`re_info`). -/
structure RandEffect where
  grouping_var : String
  type : String
  slope_vars : List String := []
  parent_var : Option String := none
deriving Repr, DecidableEq

/-- Python truthiness of an optional string (`bool(d.get(k))`). -/
def optStrTruthy : Option String → Bool
  | none => false
  | some s => s ≠ ""

/-- Python truthiness of an optional list (`bool(d.get(k))`). -/
def optListTruthy : Option (List String) → Bool
  | none => false
  | some l => l ≠ []

/-- One `_ClusterCard`: the descriptor it was built from plus its
spin-box values. -/
structure ClusterCard where
  re : RandEffect
  icc : ℚ
  nClustersVal : Option Nat
  nPerParentVal : Option Nat
  slopeVarianceVal : Option ℚ
  slopeCorrVal : Option ℚ
deriving Repr, DecidableEq

/-- Clamp helpers for the card spin boxes. -/
def clampQ (lo hi v : ℚ) : ℚ := max lo (min hi v)

/-- Clamp for the integer spin boxes. -/
def clampNat (lo hi v : Nat) : Nat := max lo (min hi v)

/-- `_ClusterCard.__init__`: build a card for `re`, taking values from
the previously saved config `prev` when present, else the widget
defaults (`ICC 0.2`, `n_clusters 20`, `n_per_parent 3`,
`slope_variance 0.1`, `slope_intercept_corr 0.0`). -/
def mkCard (re : RandEffect) (prev : Option ClusterConfig) : ClusterCard :=
  let isNestedChild := optStrTruthy re.parent_var
  let isSlope := re.type == "random_slope"
  { re := re
    icc := clampQ 0 (99/100) ((prev.map (·.ICC)).getD (2/10))
    nClustersVal :=
      if isNestedChild then none
      else some (clampNat 2 10000 ((prev.bind (·.n_clusters)).getD 20))
    nPerParentVal :=
      if isNestedChild then some (clampNat 2 1000 ((prev.bind (·.n_per_parent)).getD 3))
      else none
    slopeVarianceVal :=
      if isSlope then some (clampQ 0 10 ((prev.bind (·.slope_variance)).getD (1/10)))
      else none
    slopeCorrVal :=
      if isSlope then some (clampQ (-1) 1 ((prev.bind (·.slope_intercept_corr)).getD 0))
      else none }

/-- `_ClusterCard.get_config`. -/
def getConfig (c : ClusterCard) : ClusterConfig :=
  { grouping_var := c.re.grouping_var
    ICC := c.icc
    parent_var := if optStrTruthy c.re.parent_var then c.re.parent_var else none
    n_clusters := c.nClustersVal
    n_per_parent := c.nPerParentVal
    random_slopes := if c.re.type == "random_slope" then some c.re.slope_vars else none
    slope_variance := if c.re.type == "random_slope" then c.slopeVarianceVal else none
    slope_intercept_corr := if c.re.type == "random_slope" then c.slopeCorrVal else none }

/-- `ClusterEditor` state: current cards and the `_prev_configs`
dict. -/
structure ClusterEditorS where
  cards : List ClusterCard := []
  prevConfigs : List (String × ClusterConfig) := []
deriving Repr, DecidableEq

/-- `ClusterEditor.set_random_effects`: save current card configs,
rebuild the cards from the descriptors, and emit `clusters_changed`
with the new cards' configs (the second component). -/
def setRandomEffects (ed : ClusterEditorS) (res : List RandEffect) :
    ClusterEditorS × List ClusterConfig :=
  let prev :=
    ed.cards.foldl
      (fun d c => dictSet d (getConfig c).grouping_var (getConfig c))
      ed.prevConfigs
  let cards := res.map (fun re => mkCard re (dictGet prev re.grouping_var))
  (⟨cards, prev⟩, cards.map getConfig)

/-- The cluster-restore section of `ModelTab.restore_state` (lines
1268–1290): write the snapshot's cluster configs into the state,
rebuild the synthetic `re_list`, and call
`cluster_editor.set_random_effects` — whose `clusters_changed`
emission immediately overwrites `state.cluster_configs` with the
editor's own configs (via `_on_clusters_changed`).  The empty branch
calls `cluster_editor.clear()`, which does not emit. -/
def restoreClusterSection (snapConfigs : List ClusterConfig)
    (ed : ClusterEditorS) (s : MState) : MState × ClusterEditorS :=
  if snapConfigs ≠ [] then
    let s1 := { s with cluster_configs := snapConfigs }
    let reList :=
      snapConfigs.map
        (fun cfg =>
          { grouping_var := cfg.grouping_var
            type :=
              if optListTruthy cfg.random_slopes then "random_slope"
              else "random_intercept"
            slope_vars :=
              if optListTruthy cfg.random_slopes then cfg.random_slopes.getD []
              else []
            parent_var :=
              if optStrTruthy cfg.parent_var then cfg.parent_var else none })
    let (ed1, emitted) := setRandomEffects ed reList
    ({ s1 with cluster_configs := emitted }, ed1)
  else
    (s, { cards := [], prevConfigs := [] })

/-!
## History store (`history_manager.py`)

A record is modelled by its payload id and the file's modification
time.  `save` writes the new record (freshly written, so its mtime is
the largest) and calls `_enforce_cap`, which sorts the files by mtime
ascending and unlinks from the front while more than 25 remain.
-/

/-- `_MAX_ENTRIES = 25`. -/
def maxHistoryEntries : Nat := 25

/-- A stored history record: `(payload id, file mtime)`. -/
abbrev HistoryRec := Nat × Nat

/-- Stable insertion into a list sorted ascending by mtime. -/
def insertByMtime (r : HistoryRec) : List HistoryRec → List HistoryRec
  | [] => [r]
  | h :: t => if r.2 < h.2 then r :: h :: t else h :: insertByMtime r t

/-- Python `sorted(files, key=mtime)` (stable, ascending). -/
def sortByMtime (files : List HistoryRec) : List HistoryRec :=
  files.foldr insertByMtime []

/-- `HistoryManager._enforce_cap`: delete the oldest files (by mtime)
while more than `_MAX_ENTRIES` remain. -/
def enforceCap (files : List HistoryRec) : List HistoryRec :=
  let sorted := sortByMtime files
  sorted.drop (sorted.length - maxHistoryEntries)

/-- `HistoryManager.save`: write the new record, then enforce the
cap. -/
def saveHistory (store : List HistoryRec) (r : HistoryRec) : List HistoryRec :=
  enforceCap (store ++ [r])

/-!
## Auxiliary definitions used by the claim statements
-/

/-- Worked-example registry for the interaction expansion: `origin` a
factor with data levels Europe/Japan/USA, `hp` continuous. -/
def exampleTypesC1 : List (String × TypeInfo) :=
  [("origin",
    { type := "factor", nLevels := some 3,
      proportions := [1/3, 1/3, 1/3],
      levelLabels := ["Europe", "Japan", "USA"] }),
   ("hp", { type := "continuous" })]

/-- Modelled from the spec's partial-mode re-entry rule (comparison
definition for C3): clear `user_edits` only of entries that exactly
equal the corresponding `data_derived` value, retaining diverging
edits. -/
def specPartialReentryUserEdits (dataCorr userCorr : List (String × ℚ)) :
    List (String × ℚ) :=
  userCorr.filter (fun kv => decide (dictGet dataCorr kv.1 ≠ some kv.2))

/-- "Some unordered pair of correlable predictors has both members
present as empirical-data columns" — the condition the C4 claim uses
to decide between disabled and live strict mode. -/
def existsDataBackedPair (correlable dataCols : List String) : Bool :=
  correlable.any (fun a =>
    correlable.any (fun b =>
      a ≠ b && dataCols.contains a && dataCols.contains b))

/-- One user-visible correlation-editor operation. -/
inductive CorrEditorOp : Type
  | setVars (vs : List String)
  | setCorrs (m : List (String × ℚ))
  | edit (key : String) (v : ℚ)

/-- Apply one editor operation. -/
def applyCorrEditorOp (e : CorrEditor) : CorrEditorOp → CorrEditor
  | .setVars vs => setVariables e vs
  | .setCorrs m => setCorrelations e m
  | .edit key v => editCell e key v

/-- Apply a sequence of editor operations. -/
def applyCorrEditorOps (e : CorrEditor) (ops : List CorrEditorOp) : CorrEditor :=
  ops.foldl applyCorrEditorOp e

end MCPowerGui

namespace MCPowerGui

/-!
## Infrastructure lemmas
-/

/-- Keys are preserved or extended by one on `dictSet`. -/
theorem keys_dictSet {α : Type} (m : List (String × α)) (k : String) (v : α) :
    (dictSet m k v).map Prod.fst =
      if m.any (fun p => p.1 == k) then m.map Prod.fst
      else m.map Prod.fst ++ [k] := by
  unfold dictSet
  split
  · rw [List.map_map]
    congr 1
    funext p
    by_cases h : p.1 = k <;> simp [h]
  · simp

theorem mem_keys_dictSet {α : Type} {m : List (String × α)} {k t : String}
    (v : α) :
    t ∈ (dictSet m k v).map Prod.fst ↔ t ∈ m.map Prod.fst ∨ t = k := by
  rw [keys_dictSet]
  by_cases h : m.any (fun p => p.1 == k)
  · rw [if_pos h]
    constructor
    · exact Or.inl
    · rintro (hm | rfl)
      · exact hm
      · simp only [List.any_eq_true, beq_iff_eq] at h
        obtain ⟨p, hp, hpk⟩ := h
        exact List.mem_map.mpr ⟨p, hp, hpk⟩
  · rw [if_neg h]
    simp

/-- `find?` for key `k` over the in-place replacement finds the
replacement. -/
theorem find?_map_replace {α : Type} (m : List (String × α)) (k : String)
    (v : α) :
    (m.map (fun p => if p.1 == k then (k, v) else p)).find?
        (fun p => p.1 == k) =
      (m.find? (fun p => p.1 == k)).map (fun _ => (k, v)) := by
  induction m with
  | nil => rfl
  | cons p t ih =>
    by_cases hp : p.1 = k
    · simp [hp]
    · have hrepl : (if (p.1 == k) = true then (k, v) else p) = p := by simp [hp]
      rw [List.map_cons, hrepl,
        List.find?_cons_of_neg _ (by simpa using hp),
        List.find?_cons_of_neg _ (by simpa using hp), ih]

/-- `find?` for a key `t ≠ k` is unaffected by the in-place
replacement of `k`'s binding. -/
theorem find?_map_replace_ne {α : Type} (m : List (String × α)) (k t : String)
    (v : α) (h : t ≠ k) :
    (m.map (fun p => if p.1 == k then (k, v) else p)).find?
        (fun p => p.1 == t) =
      m.find? (fun p => p.1 == t) := by
  induction m with
  | nil => rfl
  | cons p tl ih =>
    by_cases hpk : p.1 = k
    · have hrepl : (if (p.1 == k) = true then (k, v) else p) = (k, v) := by
        simp [hpk]
      rw [List.map_cons, hrepl,
        List.find?_cons_of_neg _ (by simpa using Ne.symm h),
        List.find?_cons_of_neg _ (by simpa [hpk] using Ne.symm h), ih]
    · have hrepl : (if (p.1 == k) = true then (k, v) else p) = p := by
        simp [hpk]
      rw [List.map_cons, hrepl]
      by_cases hpt : p.1 = t
      · rw [List.find?_cons_of_pos _ (by simpa using hpt),
          List.find?_cons_of_pos _ (by simpa using hpt)]
      · rw [List.find?_cons_of_neg _ (by simpa using hpt),
          List.find?_cons_of_neg _ (by simpa using hpt), ih]

theorem dictGet_dictSet_self {α : Type} (m : List (String × α)) (k : String)
    (v : α) : dictGet (dictSet m k v) k = some v := by
  unfold dictSet dictGet
  by_cases h : m.any (fun p => p.1 == k)
  · rw [if_pos h, find?_map_replace]
    have hs : (m.find? (fun p => p.1 == k)).isSome := by
      rw [List.find?_isSome]
      simpa using h
    obtain ⟨p, hp⟩ := Option.isSome_iff_exists.mp hs
    rw [hp]
    rfl
  · rw [if_neg h, List.find?_append]
    have hnone : m.find? (fun p => p.1 == k) = none := by
      rw [List.find?_eq_none]
      intro p hp hpk
      exact h (List.any_eq_true.mpr ⟨p, hp, hpk⟩)
    rw [hnone]
    simp

theorem dictGet_dictSet_of_ne {α : Type} (m : List (String × α)) (k t : String)
    (v : α) (h : t ≠ k) : dictGet (dictSet m k v) t = dictGet m t := by
  unfold dictSet dictGet
  by_cases hany : m.any (fun p => p.1 == k)
  · rw [if_pos hany, find?_map_replace_ne _ _ _ _ h]
  · rw [if_neg hany, List.find?_append]
    have : List.find? (fun p => p.1 == t) [(k, v)] = none := by
      simp [Ne.symm h]
    rw [this]
    cases hm : m.find? (fun p => p.1 == t) <;> simp

theorem dictGet_eq_none_iff {α : Type} (m : List (String × α)) (k : String) :
    dictGet m k = none ↔ k ∉ m.map Prod.fst := by
  unfold dictGet
  constructor
  · intro h hmem
    obtain ⟨p, hp, hpk⟩ := List.mem_map.mp hmem
    have hs : (m.find? (fun q => q.1 == k)).isSome := by
      rw [List.find?_isSome]
      exact ⟨p, hp, by simpa using hpk⟩
    obtain ⟨q, hq⟩ := Option.isSome_iff_exists.mp hs
    rw [hq] at h
    exact Option.noConfusion h
  · intro h
    have : m.find? (fun q => q.1 == k) = none := by
      rw [List.find?_eq_none]
      intro p hp hpk
      exact h (List.mem_map.mpr ⟨p, hp, by simpa using hpk⟩)
    rw [this]
    rfl

/-- A product-valued `foldl` whose first component evolves
independently projects to a `foldl` on the first component. -/
theorem foldl_prod_fst {α γ δ : Type} (step : γ × δ → α → γ × δ)
    (f : γ → α → γ) (hstep : ∀ p a, (step p a).1 = f p.1 a) (l : List α) :
    ∀ p : γ × δ, (l.foldl step p).1 = l.foldl f p.1 := by
  induction l with
  | nil => intro p; rfl
  | cons a t ih =>
    intro p
    simp only [List.foldl_cons]
    rw [ih (step p a), hstep]

/-- A `foldl` that appends a singleton per element is `map`. -/
theorem foldl_append_singleton {α β : Type} (k : α → β) (l : List α) :
    ∀ init : List β,
      l.foldl (fun acc a => acc ++ [k a]) init = init ++ l.map k := by
  induction l with
  | nil => intro init; simp
  | cons a t ih => intro init; simp [ih]

/-- A `foldl` that appends a block per element is `flatMap`. -/
theorem foldl_append_blocks {α β : Type} (k : α → List β) (l : List α) :
    ∀ init : List β,
      l.foldl (fun acc a => acc ++ k a) init = init ++ l.flatMap k := by
  induction l with
  | nil => intro init; simp
  | cons a t ih => intro init; simp [ih]

/-- An invariant preserved by every step of a `foldl` holds of its
result. -/
theorem foldl_invariant {α σ : Type} (P : σ → Prop) (step : σ → α → σ)
    (l : List α) (hstep : ∀ s a, P s → P (step s a)) :
    ∀ s, P s → P (l.foldl step s) := by
  induction l with
  | nil => intro s hs; exact hs
  | cons a t ih => intro s hs; exact ih _ (hstep s a hs)

end MCPowerGui

namespace MCPowerGui

/-!
## Order facts for the Python string comparison
-/

theorem charListLt_cons {x y : Char} {xs ys : List Char} :
    charListLt (x :: xs) (y :: ys) = true ↔
      x.toNat < y.toNat ∨ (x.toNat = y.toNat ∧ charListLt xs ys = true) := by
  by_cases h1 : x.toNat < y.toNat
  · simp [charListLt, h1]
  · by_cases h2 : y.toNat < x.toNat
    · have h3 : x.toNat ≠ y.toNat := by omega
      simp [charListLt, h1, h2, h3]
    · have h3 : x.toNat = y.toNat := by omega
      simp [charListLt, h1, h2, h3]

theorem charListLt_irrefl : ∀ a : List Char, charListLt a a = false
  | [] => rfl
  | _ :: as => by
    rw [show charListLt _ _ = charListLt as as by simp [charListLt]]
    exact charListLt_irrefl as

theorem charListLt_trans :
    ∀ {a b c : List Char}, charListLt a b = true → charListLt b c = true →
      charListLt a c = true
  | [], [], _, hab, _ => by simp [charListLt] at hab
  | [], _ :: _, [], _, hbc => by simp [charListLt] at hbc
  | [], _ :: _, _ :: _, _, _ => rfl
  | _ :: _, [], _, hab, _ => by simp [charListLt] at hab
  | _ :: _, _ :: _, [], _, hbc => by simp [charListLt] at hbc
  | x :: xs, y :: ys, z :: zs, hab, hbc => by
    rw [charListLt_cons] at hab hbc ⊢
    rcases hab with h1 | ⟨h1, h1'⟩ <;> rcases hbc with h2 | ⟨h2, h2'⟩
    · exact Or.inl (Nat.lt_trans h1 h2)
    · exact Or.inl (h2 ▸ h1)
    · exact Or.inl (h1 ▸ h2)
    · exact Or.inr ⟨h1.trans h2, charListLt_trans h1' h2'⟩

theorem charListLt_trichotomy :
    ∀ a b : List Char, a = b ∨ charListLt a b = true ∨ charListLt b a = true
  | [], [] => Or.inl rfl
  | [], _ :: _ => Or.inr (Or.inl rfl)
  | _ :: _, [] => Or.inr (Or.inr rfl)
  | x :: xs, y :: ys => by
    rcases Nat.lt_trichotomy x.toNat y.toNat with h | h | h
    · exact Or.inr (Or.inl (charListLt_cons.mpr (Or.inl h)))
    · have hxy : x = y := Char.eq_of_val_eq (UInt32.toNat.inj h)
      rcases charListLt_trichotomy xs ys with h' | h' | h'
      · exact Or.inl (by rw [hxy, h'])
      · exact Or.inr (Or.inl (charListLt_cons.mpr (Or.inr ⟨h, h'⟩)))
      · exact Or.inr (Or.inr (charListLt_cons.mpr (Or.inr ⟨h.symm, h'⟩)))
    · exact Or.inr (Or.inr (charListLt_cons.mpr (Or.inl h)))

theorem strLt_irrefl (a : String) : strLt a a = false :=
  charListLt_irrefl a.data

theorem strLt_trans {a b c : String} (hab : strLt a b = true)
    (hbc : strLt b c = true) : strLt a c = true :=
  charListLt_trans hab hbc

theorem strLt_trichotomy (a b : String) :
    a = b ∨ strLt a b = true ∨ strLt b a = true := by
  rcases charListLt_trichotomy a.data b.data with h | h | h
  · exact Or.inl (String.ext h)
  · exact Or.inr (Or.inl h)
  · exact Or.inr (Or.inr h)

/-!
## `sortedUnique` facts
-/

theorem mem_insertUniqueStr {x s : String} :
    ∀ {l : List String}, x ∈ insertUniqueStr s l ↔ x = s ∨ x ∈ l := by
  intro l
  induction l with
  | nil => simp [insertUniqueStr]
  | cons h t ih =>
    unfold insertUniqueStr
    by_cases h1 : s = h
    · subst h1
      simp only [if_pos rfl]
      constructor
      · exact fun hm => Or.inr hm
      · rintro (rfl | hm)
        · exact List.mem_cons_self _ _
        · exact hm
    · rw [if_neg h1]
      by_cases h2 : strLt s h = true
      · simp [h2]
      · simp only [if_neg h2, List.mem_cons, ih]
        tauto

theorem mem_sortedUnique {x : String} :
    ∀ {l : List String}, x ∈ sortedUnique l ↔ x ∈ l := by
  intro l
  induction l with
  | nil => simp [sortedUnique]
  | cons h t ih =>
    unfold sortedUnique at ih ⊢
    rw [List.foldr_cons, mem_insertUniqueStr, ih, List.mem_cons]

/-- The sorted-insert of the profiler keeps the list strictly sorted
(adjacent pairs related by `strLt`). -/
theorem chain'_insertUniqueStr (s : String) :
    ∀ l : List String, l.Chain' (fun a b => strLt a b = true) →
      (insertUniqueStr s l).Chain' (fun a b => strLt a b = true)
  | [], _ => List.chain'_singleton s
  | h :: t, hc => by
    unfold insertUniqueStr
    by_cases h1 : s = h
    · rw [if_pos h1]
      exact hc
    · rw [if_neg h1]
      by_cases h2 : strLt s h = true
      · rw [if_pos h2]
        exact List.Chain'.cons h2 hc
      · rw [if_neg h2]
        have hhs : strLt h s = true := by
          rcases strLt_trichotomy s h with h3 | h3 | h3
          · exact absurd h3 h1
          · exact absurd h3 h2
          · exact h3
        have hct := List.Chain'.tail hc
        have hrec := chain'_insertUniqueStr s t hct
        cases t with
        | nil => exact List.chain'_cons.mpr ⟨hhs, List.chain'_singleton s⟩
        | cons t0 tt =>
          have hht0 : strLt h t0 = true := (List.chain'_cons.mp hc).1
          unfold insertUniqueStr at hrec ⊢
          by_cases h3 : s = t0
          · rw [if_pos h3] at hrec ⊢
            exact List.chain'_cons.mpr ⟨hht0, hrec⟩
          · rw [if_neg h3] at hrec ⊢
            by_cases h4 : strLt s t0 = true
            · rw [if_pos h4] at hrec ⊢
              exact List.chain'_cons.mpr ⟨hhs, hrec⟩
            · rw [if_neg h4] at hrec ⊢
              exact List.chain'_cons.mpr ⟨hht0, hrec⟩

theorem chain'_sortedUnique :
    ∀ l : List String, (sortedUnique l).Chain' (fun a b => strLt a b = true)
  | [] => List.chain'_nil
  | h :: t => by
    unfold sortedUnique
    rw [List.foldr_cons]
    exact chain'_insertUniqueStr h _ (chain'_sortedUnique t)

end MCPowerGui

namespace MCPowerGui

/-!
## Claim C1 — interaction expansion
-/

/-- C1: for an interaction predictor with at least one factor-typed
component, `_expand_predictors` expands each factor component
independently while all other components keep their bare name: for
each factor component position and each of its non-reference levels
`L`, it emits the interaction string with only that component replaced
by `component[L]` (no Cartesian product across factor components), and
every emitted term is tagged `"factor"`.  In particular, with
`origin : Factor(level_labels=["Europe","Japan","USA"])` and
`hp : Continuous`, `["origin:hp"]` expands to exactly
`["origin[Japan]:hp", "origin[USA]:hp"]`, both tagged `"factor"`. -/
theorem c1_interaction_expansion (name : String)
    (types : List (String × TypeInfo))
    (hcolon : hasColon name = true)
    (hfact : interactionFactorIndices name types ≠ []) :
    (expandPredictors [name] types).1 = specInteractionExpansion name types ∧
    (∀ t ∈ (expandPredictors [name] types).1,
        dictGet (expandPredictors [name] types).2 t = some "factor") ∧
    expandPredictors ["origin:hp"] exampleTypesC1 =
      (["origin[Japan]:hp", "origin[USA]:hp"],
       [("origin[Japan]:hp", "factor"), ("origin[USA]:hp", "factor")]) := by
  have hbody :
      expandPredictors [name] types =
        (interactionFactorIndices name types).foldl
          (fun (acc2 : List String × List (String × String)) fi =>
            (factorDummyLevels (typeInfoOf types ((splitColon name).getD fi ""))).foldl
              (fun (acc3 : List String × List (String × String)) label =>
                (acc3.1 ++ [interactionDummyName (splitColon name) fi label],
                 dictSet acc3.2 (interactionDummyName (splitColon name) fi label)
                   "factor"))
              acc2)
          ([], []) := by
    show expandStep types ([], []) name = _
    rw [expandStep]
    simp only [hcolon, if_true]
    rw [if_pos hfact]
  refine ⟨?_, ?_, by decide⟩
  · rw [hbody, specInteractionExpansion]
    rw [foldl_prod_fst _
      (fun (a : List String) fi =>
        (factorDummyLevels (typeInfoOf types ((splitColon name).getD fi ""))).foldl
          (fun a3 label => a3 ++ [interactionDummyName (splitColon name) fi label]) a)
      (fun p fi =>
        foldl_prod_fst _
          (fun a3 label => a3 ++ [interactionDummyName (splitColon name) fi label])
          (fun q lbl => rfl) _ p)]
    have hf2 :
        (fun (a : List String) fi =>
            (factorDummyLevels (typeInfoOf types ((splitColon name).getD fi ""))).foldl
              (fun a3 label => a3 ++ [interactionDummyName (splitColon name) fi label]) a) =
          fun (a : List String) fi =>
            a ++
              (factorDummyLevels (typeInfoOf types ((splitColon name).getD fi ""))).map
                (interactionDummyName (splitColon name) fi) := by
      funext a fi
      exact foldl_append_singleton _ _ a
    rw [hf2, foldl_append_blocks]
    rfl
  · rw [hbody]
    have := foldl_invariant
      (fun (acc : List String × List (String × String)) =>
        ∀ t ∈ acc.1, dictGet acc.2 t = some "factor")
      (fun (acc2 : List String × List (String × String)) fi =>
        (factorDummyLevels (typeInfoOf types ((splitColon name).getD fi ""))).foldl
          (fun (acc3 : List String × List (String × String)) label =>
            (acc3.1 ++ [interactionDummyName (splitColon name) fi label],
             dictSet acc3.2 (interactionDummyName (splitColon name) fi label)
               "factor"))
          acc2)
      (interactionFactorIndices name types)
      (fun s fi hs =>
        foldl_invariant
          (fun (acc : List String × List (String × String)) =>
            ∀ t ∈ acc.1, dictGet acc.2 t = some "factor")
          _ _
          (fun q lbl hq t ht => by
            rcases List.mem_append.mp ht with ht | ht
            · by_cases hteq : t = interactionDummyName (splitColon name) fi lbl
              · subst hteq
                exact dictGet_dictSet_self _ _ _
              · rw [dictGet_dictSet_of_ne _ _ _ _ hteq]
                exact hq t ht
            · rw [List.mem_singleton.mp ht]
              exact dictGet_dictSet_self _ _ _)
          s hs)
      ([], [])
      (fun t ht => absurd ht (List.not_mem_nil t))
    exact this

end MCPowerGui

namespace MCPowerGui

/-- Witness for C1 at the worked example: `origin:hp` with
`origin` a labelled factor and `hp` continuous. -/
theorem c1_interaction_expansion_witness :
    (expandPredictors ["origin:hp"] exampleTypesC1).1 =
      specInteractionExpansion "origin:hp" exampleTypesC1 :=
  (c1_interaction_expansion "origin:hp" exampleTypesC1 (by decide)
    (by decide)).1

/-!
## Claim C3 — partial-mode re-entry and `user_edits`
-/

/-- C3 counterexample: the claim says re-entering partial mode clears
only the `user_edits` entries that equal the data-derived value, so a
diverging edit (`0.5` against data `0.3`) would be retained — but
`_on_corr_mode_changed` clears the whole dict. -/
theorem c3_counterexample :
    onCorrModeChangedUserEdits "partial" [("a,b", (1/2 : ℚ))] = [] ∧
    specPartialReentryUserEdits [("a,b", (3/10 : ℚ))] [("a,b", (1/2 : ℚ))] =
      [("a,b", (1/2 : ℚ))] ∧
    ([] : List (String × ℚ)) ≠ [("a,b", (1/2 : ℚ))] := by
  refine ⟨rfl, ?_, by simp⟩
  simp only [specPartialReentryUserEdits, dictGet, List.filter]
  norm_num

/-- C3 (amended): whenever the preservation mode "partial" is entered
or re-entered, `_user_corr` is cleared entirely — including edits that
diverge from the data-derived values; entering "strict" or "no" keeps
it unchanged. -/
theorem c3_partial_reentry_clears_all (userCorr : List (String × ℚ)) :
    onCorrModeChangedUserEdits "partial" userCorr = [] ∧
    onCorrModeChangedUserEdits "strict" userCorr = userCorr ∧
    onCorrModeChangedUserEdits "no" userCorr = userCorr := by
  refine ⟨rfl, ?_, ?_⟩ <;> simp [onCorrModeChangedUserEdits]

/-!
## Claim C7 — model-type switch resets the editing surface
-/

/-- C7: switching `model_type` (in either direction) resets formula,
dependent variable, predictors, effects, and the variable-type
registry to empty, with no carryover from the previous mode; the new
`model_type` is the one selected. -/
theorem c7_model_type_switch_resets (text : String) (s : MState) :
    (onModelTypeChanged text s).formula = "" ∧
    (onModelTypeChanged text s).dep_var = "" ∧
    (onModelTypeChanged text s).predictors = [] ∧
    (onModelTypeChanged text s).effects = [] ∧
    (onModelTypeChanged text s).variable_types = [] ∧
    (onModelTypeChanged text s).model_type =
      (if text = "ANOVA" then "anova" else "linear_regression") := by
  unfold onModelTypeChanged
  split <;> simp

/-!
## Claim C8 — effects keys follow the expanded-term set
-/

/-- Key membership after the `set_predictors` row rebuild. -/
theorem mem_keys_effectsRowsAfterSet (effects : List (String × ℚ)) :
    ∀ (l : List String) (init : List (String × ℚ)) (k : String),
      k ∈ (l.foldl
            (fun rows name =>
              dictSet rows name (clampEffect ((dictGet effects name).getD 0)))
            init).map Prod.fst ↔
        k ∈ init.map Prod.fst ∨ k ∈ l := by
  intro l
  induction l with
  | nil => simp
  | cons a t ih =>
    intro init k
    rw [List.foldl_cons, ih, mem_keys_dictSet]
    simp only [List.mem_cons]
    tauto

/-- C8: after a rebuild driven by any change to predictors or types,
the keys of the effects map are exactly the Expander's current
expanded-term set — in particular a subset of it — and every stale
entry for a term not in the expansion is dropped. -/
theorem c8_effects_keys_subset (predictors : List String)
    (types : List (String × TypeInfo)) (effects : List (String × ℚ))
    (k : String) :
    (k ∈ (rebuildEffects predictors types effects).1.map Prod.fst →
      k ∈ (expandPredictors predictors types).1) ∧
    (k ∉ (expandPredictors predictors types).1 →
      dictGet (rebuildEffects predictors types effects).1 k = none) := by
  have hkeys :
      k ∈ (rebuildEffects predictors types effects).1.map Prod.fst ↔
        k ∈ (expandPredictors predictors types).1 := by
    rw [show (rebuildEffects predictors types effects).1 =
        effectsRowsAfterSet (expandPredictors predictors types).1 effects
      from rfl]
    rw [effectsRowsAfterSet, mem_keys_effectsRowsAfterSet]
    simp
  constructor
  · exact hkeys.mp
  · intro hnot
    rw [dictGet_eq_none_iff]
    exact fun hmem => hnot (hkeys.mp hmem)

/-- Witness for C8: the stale entry `"stale"` is dropped by a rebuild
that expands `["a"]`. -/
theorem c8_effects_keys_subset_witness :
    dictGet (rebuildEffects ["a"] [] [("stale", (1 : ℚ))]).1 "stale" = none :=
  (c8_effects_keys_subset ["a"] [] [("stale", (1 : ℚ))] "stale").2 (by decide)

/-!
## Claim C9 — history cap
-/

theorem length_insertByMtime (r : HistoryRec) :
    ∀ l : List HistoryRec, (insertByMtime r l).length = l.length + 1
  | [] => rfl
  | h :: t => by
    unfold insertByMtime
    by_cases hlt : r.2 < h.2
    · simp [hlt]
    · simp only [if_neg hlt, List.length_cons, length_insertByMtime r t]

theorem length_sortByMtime :
    ∀ l : List HistoryRec, (sortByMtime l).length = l.length
  | [] => rfl
  | h :: t => by
    show (insertByMtime h (sortByMtime t)).length = t.length + 1
    rw [length_insertByMtime, length_sortByMtime t]

/-- C9: a save never leaves more than 25 records; what survives is
exactly the mtime-sorted file list with the oldest entries dropped
down to the cap; and saving 27 records with strictly increasing
mtimes leaves exactly 25 — the 2 oldest (by mtime) evicted. -/
theorem c9_history_cap (store : List HistoryRec) (r : HistoryRec) :
    (saveHistory store r).length = min (store.length + 1) 25 ∧
    saveHistory store r =
      (sortByMtime (store ++ [r])).drop (store.length + 1 - 25) ∧
    List.foldl saveHistory [] ((List.range 27).map (fun i => (i, i))) =
      ((List.range 27).map (fun i => (i, i))).drop 2 := by
  refine ⟨?_, ?_, by decide⟩
  · show (enforceCap (store ++ [r])).length = _
    rw [enforceCap]
    simp only [List.length_drop, length_sortByMtime, List.length_append,
      List.length_singleton, maxHistoryEntries]
    omega
  · show enforceCap (store ++ [r]) = _
    rw [enforceCap]
    simp only [length_sortByMtime, List.length_append, List.length_singleton,
      maxHistoryEntries]

/-!
## Claim C10 — the editor never reports zero-valued correlations
-/

/-- C10: after any sequence of editor operations, every entry read out
by `get_correlations` is non-zero; and editing any pair's cell to
exactly `0.0` removes that pair from the read-out map (no `0.0` entry
is recorded). -/
theorem c10_correlations_nonzero (init : CorrEditor)
    (ops : List CorrEditorOp) (k : String) (v : ℚ) :
    ((k, v) ∈ getCorrelations (applyCorrEditorOps init ops) → v ≠ 0) ∧
    (∀ e : CorrEditor, dictGet (getCorrelations (editCell e k 0)) k = none) := by
  constructor
  · intro hmem
    have := (List.mem_filter.mp hmem).2
    exact of_decide_eq_true this
  · intro e
    have hclamp : clampCorr 0 = 0 := by
      unfold clampCorr
      norm_num
    rw [dictGet_eq_none_iff]
    intro hmem
    obtain ⟨p, hp, hpk⟩ := List.mem_map.mp hmem
    have hpf := List.mem_filter.mp hp
    obtain ⟨q, hq, hqp⟩ := List.mem_map.mp hpf.1
    by_cases hqk : q.1 = k
    · rw [if_pos (by simpa using hqk), hclamp] at hqp
      have : p.2 = 0 := by rw [← hqp]
      exact absurd this (of_decide_eq_true hpf.2)
    · rw [if_neg (by simpa using hqk)] at hqp
      rw [← hqp] at hpk
      exact hqk (hpk ▸ rfl)

/-- Witness for C10: a concrete edit of `0.5` into the single cell of
a two-variable editor is read back, and the theorem rules out a zero
value for it. -/
theorem c10_correlations_nonzero_witness : (1/2 : ℚ) ≠ 0 := by
  apply (c10_correlations_nonzero ⟨["x", "y"], [("x,y", 0)]⟩
    [.edit "x,y" (1/2)] "x,y" (1/2)).1
  show ((("x,y", (1/2 : ℚ))) ∈
    getCorrelations (editCell ⟨["x", "y"], [("x,y", 0)]⟩ "x,y" (1/2)))
  simp only [getCorrelations, editCell, List.map_cons, List.map_nil]
  norm_num [clampCorr, List.filter]

end MCPowerGui

namespace MCPowerGui

/-!
## Claim C6 — type detection boundaries
-/

/-- C6: per-column detection by cardinality of distinct formatted
values: exactly 2 → Binary whose proportion is the row fraction of the
alphabetically larger of the two formatted values, rounded to 2
decimals; 3 to 6 → Factor whose `level_labels` are the distinct
formatted values in ascending alphabetical order with per-label row
fractions rounded to 4 decimals; more than 6 → Continuous. -/
theorem c6_type_detection (values : List CellValue) :
    ((sortedUnique (values.map formatLevelLabel)).length = 2 →
      ∃ u w, sortedUnique (values.map formatLevelLabel) = [u, w] ∧
        strLt u w = true ∧
        (∀ x ∈ values.map formatLevelLabel, x = u ∨ x = w) ∧
        detectColumn values =
          { type := "binary",
            proportion := some (roundDec 2
              (((values.map formatLevelLabel).count w : ℚ) /
                ((values.map formatLevelLabel).length : ℚ))),
            nUnique := some 2 }) ∧
    (3 ≤ (sortedUnique (values.map formatLevelLabel)).length ∧
        (sortedUnique (values.map formatLevelLabel)).length ≤ 6 →
      (detectColumn values).type = "factor" ∧
      (detectColumn values).nLevels =
        some (sortedUnique (values.map formatLevelLabel)).length ∧
      (detectColumn values).levelLabels =
        sortedUnique (values.map formatLevelLabel) ∧
      (∀ x, x ∈ (detectColumn values).levelLabels ↔
        x ∈ values.map formatLevelLabel) ∧
      (detectColumn values).levelLabels.Chain' (fun a b => strLt a b = true) ∧
      (detectColumn values).proportions =
        (sortedUnique (values.map formatLevelLabel)).map (fun label =>
          roundDec 4 (((values.map formatLevelLabel).count label : ℚ) /
            ((values.map formatLevelLabel).length : ℚ)))) ∧
    (6 < (sortedUnique (values.map formatLevelLabel)).length →
      detectColumn values =
        { type := "continuous",
          nUnique :=
            some (sortedUnique (values.map formatLevelLabel)).length }) := by
  refine ⟨?_, ?_, ?_⟩
  · intro h
    obtain ⟨u, w, hsu⟩ := List.length_eq_two.mp h
    refine ⟨u, w, hsu, ?_, ?_, ?_⟩
    · have hchain := chain'_sortedUnique (values.map formatLevelLabel)
      rw [hsu] at hchain
      exact (List.chain'_cons.mp hchain).1
    · intro x hx
      have hmem := mem_sortedUnique.mpr hx
      rw [hsu] at hmem
      simpa using hmem
    · simp only [detectColumn]
      rw [if_pos h, hsu]
      simp [h]
  · rintro ⟨h3, h6⟩
    have h2 : ¬(sortedUnique (values.map formatLevelLabel)).length = 2 := by
      omega
    have hdet :
        detectColumn values =
          { type := "factor",
            nLevels := some (sortedUnique (values.map formatLevelLabel)).length,
            proportions :=
              (sortedUnique (values.map formatLevelLabel)).map (fun label =>
                roundDec 4 (((values.map formatLevelLabel).count label : ℚ) /
                  ((values.map formatLevelLabel).length : ℚ))),
            levelLabels := sortedUnique (values.map formatLevelLabel),
            nUnique :=
              some (sortedUnique (values.map formatLevelLabel)).length } := by
      simp only [detectColumn]
      rw [if_neg h2, if_pos ⟨h3, h6⟩]
    rw [hdet]
    refine ⟨rfl, rfl, rfl, ?_, chain'_sortedUnique _, rfl⟩
    intro x
    exact mem_sortedUnique
  · intro h
    have h2 : ¬(sortedUnique (values.map formatLevelLabel)).length = 2 := by
      omega
    have h36 : ¬(3 ≤ (sortedUnique (values.map formatLevelLabel)).length ∧
        (sortedUnique (values.map formatLevelLabel)).length ≤ 6) := by
      omega
    simp only [detectColumn]
    rw [if_neg h2, if_neg h36]

/-- Witness for C6 at a concrete two-valued column. -/
theorem c6_type_detection_witness :
    ∃ u w,
      sortedUnique ([CellValue.str "a", .str "b", .str "b"].map
          formatLevelLabel) = [u, w] ∧
      strLt u w = true ∧
      (∀ x ∈ [CellValue.str "a", .str "b", .str "b"].map formatLevelLabel,
        x = u ∨ x = w) ∧
      detectColumn [CellValue.str "a", .str "b", .str "b"] =
        { type := "binary",
          proportion := some (roundDec 2
            ((([CellValue.str "a", .str "b", .str "b"].map
                formatLevelLabel).count w : ℚ) /
              (([CellValue.str "a", .str "b", .str "b"].map
                formatLevelLabel).length : ℚ))),
          nUnique := some 2 } :=
  (c6_type_detection [CellValue.str "a", .str "b", .str "b"]).1 (by decide)

end MCPowerGui

namespace MCPowerGui

/-!
## Claim C4 — strict mode
-/

theorem clampCorr_zero : clampCorr 0 = 0 := by
  unfold clampCorr
  norm_num

theorem getAllKeys_setCorrelations (e : CorrEditor) (m : List (String × ℚ)) :
    getAllKeys (setCorrelations e m) = getAllKeys e := by
  simp [getAllKeys, setCorrelations]

theorem getCorrelations_setCorrelations_nil (e : CorrEditor) :
    getCorrelations (setCorrelations e []) = [] := by
  unfold getCorrelations setCorrelations
  rw [List.filter_eq_nil_iff]
  intro kv hkv
  obtain ⟨q, _, hq⟩ := List.mem_map.mp hkv
  have : kv.2 = 0 := by
    rw [← hq]
    show clampCorr ((dictGet ([] : List (String × ℚ)) q.1).getD 0) = 0
    exact clampCorr_zero
  simp [this]

/-- C4 counterexample: with correlable predictors `x, y`, of which only
`x` is an uploaded-data column, no unordered pair is data-backed — the
claim then demands an empty canonical map and a disabled editor — yet
strict mode stays live: it keeps the user's `x,y` entry in the
canonical map (and merely locks that pair). -/
theorem c4_counterexample :
    existsDataBackedPair
        (correlableVariables ["x", "y"]
          [("x", { type := "continuous" }), ("y", { type := "continuous" })])
        ["x", "d"] = false ∧
    (applyCorrMode "strict" (some ["x", "d"]) ["x", "y"]
        [("x", { type := "continuous" }), ("y", { type := "continuous" })]
        [] [("x,y", (1/2 : ℚ))] ⟨["x", "y"], [("x,y", 0)]⟩).fullyDisabled =
      false ∧
    (applyCorrMode "strict" (some ["x", "d"]) ["x", "y"]
        [("x", { type := "continuous" }), ("y", { type := "continuous" })]
        [] [("x,y", (1/2 : ℚ))] ⟨["x", "y"], [("x,y", 0)]⟩).canonical =
      [("x,y", (1/2 : ℚ))] ∧
    [("x,y", (1/2 : ℚ))] ≠ ([] : List (String × ℚ)) := by
  refine ⟨by decide, ?_, ?_, by simp⟩
  · simp +decide [applyCorrMode, dataBackedVariables, correlableVariables,
      typeInfoOf, dictGet, hasColon]
  · simp +decide only [applyCorrMode, dataBackedVariables,
      correlableVariables, typeInfoOf, dictGet, hasColon, dictMerge, dictSet,
      setCorrelations, getCorrelations, getAllKeys, splitComma, splitCharsOn,
      List.filter, List.map, List.find?, List.any]
    norm_num [clampCorr, List.filter]

/-- C4 (amended): in strict mode the disabled-versus-live decision is
made on whether any single correlable predictor is data-backed (not on
whether a whole pair is): with no data-backed variable the canonical
map is empty and the editor disabled; with at least one, the editor
stays enabled, exactly the pairs with a data-backed member are locked,
and the canonical map is exactly `data_derived` overlaid by
`user_edits`, restricted to the current editor pairs, clamped to the
spin-box range `[-0.99, 0.99]`, with zero values dropped: every
canonical entry is the non-zero clamped overlay value of an existing
cell, and conversely every editor pair whose clamped overlay value is
non-zero appears in the canonical map with that value. -/
theorem c4_strict_mode (uploadedCols : Option (List String))
    (predictors : List String) (types : List (String × TypeInfo))
    (dataCorr userCorr : List (String × ℚ)) (e : CorrEditor) :
    (dataBackedVariables uploadedCols (correlableVariables predictors types) =
        [] →
      (applyCorrMode "strict" uploadedCols predictors types dataCorr userCorr
          e).fullyDisabled = true ∧
      (applyCorrMode "strict" uploadedCols predictors types dataCorr userCorr
          e).canonical = []) ∧
    (dataBackedVariables uploadedCols (correlableVariables predictors types) ≠
        [] →
      (applyCorrMode "strict" uploadedCols predictors types dataCorr userCorr
          e).fullyDisabled = false ∧
      (applyCorrMode "strict" uploadedCols predictors types dataCorr userCorr
          e).locked =
        (getAllKeys e).filter
          (fun key =>
            (dataBackedVariables uploadedCols
                (correlableVariables predictors types)).contains
              ((splitComma key).getD 0 "") ||
            (dataBackedVariables uploadedCols
                (correlableVariables predictors types)).contains
              ((splitComma key).getD 1 "")) ∧
      (∀ kv ∈ (applyCorrMode "strict" uploadedCols predictors types dataCorr
          userCorr e).canonical,
        kv.2 ≠ 0 ∧ kv.1 ∈ getAllKeys e ∧
        kv.2 = clampCorr ((dictGet (dictMerge dataCorr userCorr) kv.1).getD 0)) ∧
      (∀ key ∈ getAllKeys e,
        clampCorr ((dictGet (dictMerge dataCorr userCorr) key).getD 0) ≠ 0 →
        (key, clampCorr ((dictGet (dictMerge dataCorr userCorr) key).getD 0)) ∈
          (applyCorrMode "strict" uploadedCols predictors types dataCorr
            userCorr e).canonical)) := by
  constructor
  · intro h
    unfold applyCorrMode
    rw [if_pos rfl, if_neg (by simpa using h)]
    exact ⟨rfl, getCorrelations_setCorrelations_nil e⟩
  · intro h
    have hres :
        applyCorrMode "strict" uploadedCols predictors types dataCorr userCorr
            e =
          { editor := setCorrelations e (dictMerge dataCorr userCorr),
            locked :=
              (getAllKeys (setCorrelations e (dictMerge dataCorr
                  userCorr))).filter
                (fun key =>
                  (dataBackedVariables uploadedCols
                      (correlableVariables predictors types)).contains
                    ((splitComma key).getD 0 "") ||
                  (dataBackedVariables uploadedCols
                      (correlableVariables predictors types)).contains
                    ((splitComma key).getD 1 "")),
            fullyDisabled := false,
            canonical :=
              getCorrelations (setCorrelations e (dictMerge dataCorr
                userCorr)),
            mode := "strict" } := by
      unfold applyCorrMode
      rw [if_pos rfl, if_pos h]
    rw [hres]
    refine ⟨rfl, ?_, ?_, ?_⟩
    · rw [getAllKeys_setCorrelations]
    · intro kv hkv
      have hf := List.mem_filter.mp hkv
      refine ⟨of_decide_eq_true hf.2, ?_, ?_⟩
      · obtain ⟨q, hq, hqkv⟩ := List.mem_map.mp hf.1
        rw [← hqkv]
        exact List.mem_map.mpr ⟨q, hq, rfl⟩
      · obtain ⟨q, hq, hqkv⟩ := List.mem_map.mp hf.1
        rw [← hqkv]
    · intro key hkey hnz
      obtain ⟨q, hq, hqk⟩ := List.mem_map.mp hkey
      refine List.mem_filter.mpr ⟨?_, ?_⟩
      · exact List.mem_map.mpr ⟨q, hq, by rw [hqk]⟩
      · exact decide_eq_true hnz

/-- Witness for C4 (amended) with one data-backed correlable variable:
the editor stays live and the user's non-zero `x,y` value appears in
the canonical map. -/
theorem c4_strict_mode_witness :
    (applyCorrMode "strict" (some ["x"]) ["x", "y"]
        [("x", { type := "continuous" }), ("y", { type := "continuous" })]
        [] [("x,y", (1/4 : ℚ))]
        ⟨["x", "y"], [("x,y", 0)]⟩).fullyDisabled = false ∧
    ("x,y",
        clampCorr ((dictGet (dictMerge [] [("x,y", (1/4 : ℚ))]) "x,y").getD
          0)) ∈
      (applyCorrMode "strict" (some ["x"]) ["x", "y"]
        [("x", { type := "continuous" }), ("y", { type := "continuous" })]
        [] [("x,y", (1/4 : ℚ))] ⟨["x", "y"], [("x,y", 0)]⟩).canonical :=
  ⟨((c4_strict_mode (some ["x"]) ["x", "y"]
      [("x", { type := "continuous" }), ("y", { type := "continuous" })]
      [] [("x,y", (1/4 : ℚ))] ⟨["x", "y"], [("x,y", 0)]⟩).2
        (by decide)).1,
   ((c4_strict_mode (some ["x"]) ["x", "y"]
      [("x", { type := "continuous" }), ("y", { type := "continuous" })]
      [] [("x,y", (1/4 : ℚ))] ⟨["x", "y"], [("x,y", 0)]⟩).2
        (by decide)).2.2.2 "x,y" (by decide)
    (by norm_num [dictMerge, dictSet, dictGet, List.find?, clampCorr])⟩

end MCPowerGui

namespace MCPowerGui

/-!
## Claim C5 — undefined correlation coefficients
-/

/-- The two-column run of `_compute_data_correlations`: one pair, one
store decision (shared helper for the C5 statements). -/
theorem computeDataCorrelations_pair (a b : String) (xs ys : List ℚ)
    (hab : a ≠ b) :
    computeDataCorrelations [a, b] [(a, xs), (b, ys)] =
      match storedCorrEntry ys xs with
      | some val => [(corrKey b a, val)]
      | none => [] := by
  have hga : dictGet [(a, xs), (b, ys)] a = some xs := by
    unfold dictGet
    rw [List.find?_cons_of_pos _ (by simp)]
    rfl
  have hgb : dictGet [(a, xs), (b, ys)] b = some ys := by
    unfold dictGet
    rw [List.find?_cons_of_neg _ (by simpa using hab),
      List.find?_cons_of_pos _ (by simp)]
    rfl
  have hcols :
      List.filter (fun c => (dictGet [(a, xs), (b, ys)] c).isSome) [a, b] =
        [a, b] := by
    simp [List.filter, hga, hgb]
  rw [computeDataCorrelations]
  simp only [hcols]
  rw [if_neg (by simp)]
  have hr : List.range ([a, b] : List String).length = [0, 1] := rfl
  rw [hr]
  simp only [List.foldl_cons, List.foldl_nil]
  rw [if_pos (by decide : (0 : Nat) ≤ 0), if_pos (by decide : (0 : Nat) ≤ 1),
    if_neg (by decide : ¬ (1 : Nat) ≤ 0), if_pos (by decide : (1 : Nat) ≤ 1)]
  have hget0 : ([a, b] : List String).getD 0 "" = a := rfl
  have hget1 : ([a, b] : List String).getD 1 "" = b := rfl
  rw [hget0, hget1, hga, hgb]
  simp only [Option.getD_some]
  cases hst : storedCorrEntry ys xs with
  | none => simp
  | some val => simp [dictSet]

/-- C5 counterexample: a zero-variance column (`x = [1, 1]`) against a
varying one (`y = [1, 2]`) yields an IEEE-NaN Pearson coefficient, and
`_compute_data_correlations` *stores* it under the pair key — NaN is
not omitted, because `nan != 0.0` is true. -/
theorem c5_counterexample :
    ("x,y", EFloat.nan) ∈
      computeDataCorrelations ["x", "y"] [("x", [1, 1]), ("y", [1, 2])] := by
  have hstored : storedCorrEntry [(1 : ℚ), 2] [(1 : ℚ), 1] = some .nan := by
    unfold storedCorrEntry corrEntryRounded
    norm_num [devs, meanQ, sumQ, efloatNeZero]
  rw [computeDataCorrelations_pair "x" "y" [1, 1] [1, 2] (by decide), hstored]
  have hkey : corrKey "y" "x" = "x,y" := by decide
  rw [hkey]
  exact List.mem_singleton.mpr rfl

/-- C5 (amended): when the Pearson coefficient of a pair is undefined
(a zero-variance column makes it NaN), the NaN *is stored* in the
data-derived map — `round(nan, 2) != 0.0` holds — whereas a defined
coefficient that rounds to exactly `0.0` is omitted.  The last
conjunct grounds the per-pair store decision in the two-column run of
`_compute_data_correlations`. -/
theorem c5_nan_stored (xs ys : List ℚ) (a b : String) (hab : a ≠ b) :
    (corrEntryRounded xs ys = .nan → storedCorrEntry xs ys = some .nan) ∧
    (corrEntryRounded xs ys = .fin 0 → storedCorrEntry xs ys = none) ∧
    (computeDataCorrelations [a, b] [(a, xs), (b, ys)] =
      match storedCorrEntry ys xs with
      | some val => [(corrKey b a, val)]
      | none => []) := by
  refine ⟨?_, ?_, ?_⟩
  · intro h
    unfold storedCorrEntry
    rw [h]
    rfl
  · intro h
    unfold storedCorrEntry
    rw [h]
    simp [efloatNeZero]
  · exact computeDataCorrelations_pair a b xs ys hab

/-- Witness for C5 (amended): the NaN branch fires on a concrete
zero-variance column. -/
theorem c5_nan_stored_witness :
    storedCorrEntry [(1 : ℚ), 1] [(1 : ℚ), 2] = some .nan :=
  (c5_nan_stored [(1 : ℚ), 1] [(1 : ℚ), 2] "x" "y" (by decide)).1
    (by unfold corrEntryRounded; norm_num [devs, meanQ, sumQ])

end MCPowerGui

namespace MCPowerGui

/-!
## Claim C2 — snapshot round-trip (cluster configs)
-/

/-- C2, evaluated at the failing input: restoring a snapshot whose
cluster config carries non-default values (`ICC 0.5`,
`n_clusters 30`) into a session whose cluster editor holds the
default card for the same grouping variable leaves
`state.cluster_configs` at the editor defaults (`ICC 0.2`,
`n_clusters 20`), not at the snapshot values: the assignment on line
1271 of `tabs/model_tab.py` is immediately overwritten by the
`clusters_changed` emission of `set_random_effects`.  Run settings are
restored separately by the app shell; the cluster fields are the ones
the round-trip loses. -/
theorem c2_restore_cluster_overwrite :
    ((restoreClusterSection
          [{ grouping_var := "school", ICC := 1/2, n_clusters := some 30 }]
          { cards :=
              [mkCard { grouping_var := "school", type := "random_intercept" }
                none],
            prevConfigs := [] }
          {}).1).cluster_configs =
      [{ grouping_var := "school", ICC := 2/10, n_clusters := some 20 }] ∧
    ([{ grouping_var := "school", ICC := 2/10, n_clusters := some 20 }] :
        List ClusterConfig) ≠
      [{ grouping_var := "school", ICC := 1/2, n_clusters := some 30 }] := by
  constructor
  · simp +decide only [restoreClusterSection, setRandomEffects, mkCard,
      getConfig, optListTruthy, optStrTruthy, dictSet, dictGet, List.foldl,
      List.map, List.find?, List.any]
    norm_num [clampQ, clampNat]
  · intro h
    have := List.head_eq_of_cons_eq h
    have hICC : (2/10 : ℚ) = 1/2 := congrArg ClusterConfig.ICC this
    norm_num at hICC

end MCPowerGui
